import Mathlib

/-
Verification of the endpoint-index / query engine of the fortnox-doc-mcp
repository (src/openapi-parser.ts and the MCP server module).

Strings are modelled as lists of characters (`Str`).  JavaScript's
`toLowerCase`/`toUpperCase` are modelled via `Char.toLower`/`Char.toUpper`
(adequate for the ASCII data these claims exercise), `String.prototype.includes`
as substring search (`isSubstr`), and `String.prototype.replace` with a string
pattern as replacement of the first occurrence (`replaceFirst`).  JavaScript
objects with string keys are modelled as association lists in insertion order,
matching the guaranteed key iteration order for non-numeric keys.
-/

namespace FortnoxDoc

abbrev Str := List Char

def toLowerStr (s : Str) : Str := s.map Char.toLower

def toUpperStr (s : Str) : Str := s.map Char.toUpper

/-- Model of JS `a.startsWith(b)` (here: `isPrefB pat s` means pat begins s). -/
def isPrefB : Str → Str → Bool
  | [], _ => true
  | _ :: _, [] => false
  | a :: as, b :: bs => a = b && isPrefB as bs

/-- Model of JS `hay.includes(needle)`: substring occurrence. -/
def isSubstr (needle : Str) : Str → Bool
  | [] => isPrefB needle []
  | c :: t => isPrefB needle (c :: t) || isSubstr needle t

/-- Model of JS `s.replace(pat, rep)` with a string pattern: replaces the first
occurrence of `pat` only. -/
def replaceFirst (pat rep : Str) : Str → Str
  | [] => if isPrefB pat [] then rep else []
  | c :: t =>
    if isPrefB pat (c :: t) then rep ++ (c :: t).drop pat.length
    else c :: replaceFirst pat rep t

/-- Spec-side notion of prefix stripping: drop `pat` when it is a prefix,
otherwise leave the string unchanged.  Used to state claims that speak of
"the tag with the vendor prefix stripped". -/
def dropPref (pat s : Str) : Str := if isPrefB pat s then s.drop pat.length else s

/-- The literal `{` character, written via its code point. -/
def lbrace : Char := Char.ofNat 123

/- ---------------------------------------------------------------------
Data model, translated from the TypeScript interfaces in openapi-parser.ts.
The numeric/string constraint fields of `Schema` (`format`, `enum`,
`required`, `maxLength`, `minLength`, `minimum`, `maximum`, `pattern`,
`additionalProperties`) are never inspected by any operation verified here
(schemas are copied verbatim into endpoints); they are omitted from the
embedding.
--------------------------------------------------------------------- -/

inductive Schema where
  | mk : (type : Option Str) → (description : Option Str) → (ref : Option Str) →
      (properties : Option (List (Str × Schema))) → (items : Option Schema) → Schema

def Schema.type : Schema → Option Str
  | .mk t _ _ _ _ => t

def Schema.description : Schema → Option Str
  | .mk _ d _ _ _ => d

def Schema.ref : Schema → Option Str
  | .mk _ _ r _ _ => r

def Schema.properties : Schema → Option (List (Str × Schema))
  | .mk _ _ _ p _ => p

def Schema.items : Schema → Option Schema
  | .mk _ _ _ _ i => i

structure Parameter where
  name : Str
  inLoc : Str
  description : Option Str
  required : Option Bool
  schema : Schema

structure RequestBody where
  description : Option Str
  required : Option Bool
  content : List (Str × Schema)

structure Response where
  description : Str
  content : Option (List (Str × Schema))

structure Operation where
  operationId : Str
  summary : Option Str
  description : Option Str
  tags : Option (List Str)
  parameters : Option (List Parameter)
  requestBody : Option RequestBody
  responses : List (Str × Response)

structure PathItem where
  get : Option Operation
  post : Option Operation
  put : Option Operation
  delete : Option Operation
  patch : Option Operation

structure Info where
  title : Str
  description : Option Str
  version : Option Str

structure ServerEntry where
  url : Str
  description : Option Str
  deriving DecidableEq

structure OpenAPISpec where
  info : Info
  servers : List ServerEntry
  paths : List (Str × PathItem)
  componentsSchemas : List (Str × Schema)

structure Endpoint where
  path : Str
  method : Str
  operationId : Str
  summary : Option Str
  description : Option Str
  parameters : List Parameter
  requestBodySchema : Option Schema
  responseSchema : Option Schema
  tags : Option (List Str)

/- ---------------------------------------------------------------------
SpecLoader: the OpenAPIParser constructor does `JSON.parse(specContent)` and
nothing else — there is no validation of the parsed document's shape.  A parse
result is modelled as `Option RawDoc` (`none` = JSON.parse threw), where a
`RawDoc` may be missing any top-level field.
--------------------------------------------------------------------- -/

structure RawDoc where
  info : Option Info
  servers : Option (List ServerEntry)
  paths : Option (List (Str × PathItem))
  componentsSchemas : Option (List (Str × Schema))

/-- `new OpenAPIParser(path)`: parse the content; a parse failure propagates as
a thrown error, any successfully parsed document is accepted unchecked. -/
def loadSpec (parsed : Option RawDoc) : Except Str RawDoc :=
  match parsed with
  | none => Except.error ("SyntaxError: Unexpected token in JSON".toList)
  | some d => Except.ok d

/-- getBaseUrl: url of the first server; throws when the list is empty. -/
def getBaseUrl (spec : OpenAPISpec) : Except Str Str :=
  match spec.servers with
  | [] => Except.error ("No servers defined in OpenAPI spec".toList)
  | s :: _ => Except.ok s.url

/- ---------------------------------------------------------------------
EndpointIndex construction (OpenAPIParser.getAllEndpoints / parseOperation).
--------------------------------------------------------------------- -/

/-- parseOperation: flatten one (path, method, Operation) into an Endpoint. -/
def parseOperation (path method : Str) (op : Operation) : Endpoint :=
  { path := path
    method := toUpperStr method
    operationId := op.operationId
    summary := op.summary
    description := op.description
    parameters := op.parameters.getD []
    tags := op.tags
    requestBodySchema :=
      match op.requestBody with
      | some rb =>
        match rb.content.head? with
        | some (contentType, sch) => if contentType = [] then none else some sch
        | none => none
      | none => none
    responseSchema :=
      match (op.responses.lookup ("200".toList)).or (op.responses.lookup ("201".toList)) with
      | some resp =>
        match resp.content with
        | some cs =>
          match cs.head? with
          | some (contentType, sch) => if contentType = [] then none else some sch
          | none => none
        | none => none
      | none => none }

/-- `pathItem[method]` for the method strings tried by getAllEndpoints. -/
def PathItem.opFor (it : PathItem) (m : Str) : Option Operation :=
  if m = "get".toList then it.get
  else if m = "post".toList then it.post
  else if m = "put".toList then it.put
  else if m = "delete".toList then it.delete
  else if m = "patch".toList then it.patch
  else none

def methodOrder : List Str :=
  ["get".toList, "post".toList, "put".toList, "delete".toList, "patch".toList]

def pathEndpoints (p : Str) (it : PathItem) : List Endpoint :=
  methodOrder.filterMap (fun m => (it.opFor m).map (fun op => parseOperation p m op))

/-- getAllEndpoints: iterate paths in document key order, methods in the fixed
order get, post, put, delete, patch. -/
def getAllEndpoints (spec : OpenAPISpec) : List Endpoint :=
  spec.paths.flatMap (fun pr => pathEndpoints pr.1 pr.2)

/-- The endpoint index the FortnoxMCPServer constructor builds from a raw
(unvalidated) parse result: `Object.entries(this.spec.paths)` throws a
TypeError when `paths` is absent. -/
def indexFromRaw (d : RawDoc) : Except Str (List Endpoint) :=
  match d.paths with
  | none => Except.error ("TypeError: Cannot convert undefined or null to object".toList)
  | some ps => Except.ok (ps.flatMap (fun pr => pathEndpoints pr.1 pr.2))

/- ---------------------------------------------------------------------
SchemaResolver (resolveSchemaRef / getSchemaDescription).
--------------------------------------------------------------------- -/

def schemasRefPref : Str := "#/components/schemas/".toList

/-- resolveSchemaRef: accepts only `#/components/schemas/<name>` refs. -/
def resolveSchemaRef (spec : OpenAPISpec) (ref : Str) : Option Schema :=
  if isPrefB schemasRefPref ref then
    (spec.componentsSchemas).lookup (replaceFirst schemasRefPref [] ref)
  else none

def schemaReferenceStr : Str := "Schema reference".toList

/-- getSchemaDescription: one-line description of a schema.  All the JS
truthiness tests (`if (schema.$ref)`, `if (schema.description)`,
`resolved?.description || ...`, `schema.type || 'unknown'`) treat the empty
string like an absent field. -/
def getSchemaDescription (spec : OpenAPISpec) (s : Schema) : Str :=
  let descBranch : Str :=
    match s.description with
    | some d =>
      if d = [] then
        getSchemaDescTypeBranch s
      else d
    | none => getSchemaDescTypeBranch s
  match s.ref with
  | some r =>
    if r = [] then descBranch
    else
      match (resolveSchemaRef spec r).bind Schema.description with
      | some d => if d = [] then schemaReferenceStr else d
      | none => schemaReferenceStr
  | none => descBranch
where
  /-- The object/array/raw-type fallback chain at the end of the function. -/
  getSchemaDescTypeBranch (s : Schema) : Str :=
    if s.type = some ("object".toList) && s.properties.isSome then
      let keys := (s.properties.getD []).map Prod.fst
      "Object with properties: ".toList ++
        (List.intercalate (", ".toList) (keys.take 3)) ++
        (if 3 < keys.length then "...".toList else [])
    else if s.type = some ("array".toList) && s.items.isSome then
      "Array of ".toList ++
        (match (s.items.getD (Schema.mk none none none none none)).type with
         | some t => if t = [] then "items".toList else t
         | none => "items".toList)
    else
      match s.type with
      | some t => if t = [] then "unknown".toList else t
      | none => "unknown".toList

/- ---------------------------------------------------------------------
QueryEngine (FortnoxMCPServer tool implementations).  A tool outcome is
either a success payload or an `isError: true` text (`ToolOut.err`).
--------------------------------------------------------------------- -/

inductive ToolOut (α : Type) where
  | ok : α → ToolOut α
  | err : Str → ToolOut α

/-- A JS `Record<string, number>` used as a counter, in key insertion order:
increment the key's entry, appending a fresh key at the end. -/
def bump (k : Str) : List (Str × Nat) → List (Str × Nat)
  | [] => [(k, 1)]
  | (k2, v) :: t => if k2 = k then (k2, v + 1) :: t else (k2, v) :: bump k t

def lookupCount (k : Str) : List (Str × Nat) → Nat
  | [] => 0
  | (k2, v) :: t => if k2 = k then v else lookupCount k t

/-- methodCounts of getAPIOverview. -/
def methodCountsOf (eps : List Endpoint) : List (Str × Nat) :=
  eps.foldl (fun m e => bump e.method m) []

/-- tagCounts of getAPIOverview / listResourceGroups (`if (endpoint.tags)`
skips only an absent tag array). -/
def tagCountsOf (eps : List Endpoint) : List (Str × Nat) :=
  eps.foldl
    (fun m e =>
      match e.tags with
      | some ts => ts.foldl (fun m2 t => bump t m2) m
      | none => m)
    []

/-- The JS stable sort comparator `(a, b) => b[1] - a[1]`: `a` may come before
`b` exactly when `b`'s count does not exceed `a`'s. -/
def countGe (a b : Str × Nat) : Prop := b.2 ≤ a.2

instance : DecidableRel countGe := fun a b => Nat.decLe b.2 a.2

instance : IsTotal (Str × Nat) countGe :=
  ⟨fun a b => (Nat.le_total b.2 a.2).elim Or.inl Or.inr⟩

instance : IsTrans (Str × Nat) countGe :=
  ⟨fun _ _ _ hab hbc => Nat.le_trans hbc hab⟩

structure Overview where
  baseUrl : Str
  totalEndpoints : Nat
  methodCounts : List (Str × Nat)
  resourceGroups : Nat
  top10 : List (Str × Nat)

/-- getAPIOverview: reads the spec, retrieves the base URL (which throws when
`servers` is empty), then aggregates method and tag counts and keeps the ten
entries with the highest counts of the stable count-descending sort. -/
def getAPIOverview (spec : OpenAPISpec) (eps : List Endpoint) : Except Str Overview :=
  match getBaseUrl spec with
  | Except.error e => Except.error e
  | Except.ok url =>
    let mc := methodCountsOf eps
    let tc := tagCountsOf eps
    Except.ok
      { baseUrl := url
        totalEndpoints := eps.length
        methodCounts := mc
        resourceGroups := tc.length
        top10 := (tc.insertionSort countGe).take 10 }

structure ListAllOut where
  totalFound : Nat
  showing : Nat
  entries : List Endpoint

/-- The `filteredEndpoints` variable of listAllEndpoints after both optional
filters were applied (`args.method` and `args.tag` are tested for JS
truthiness, so an empty-string filter behaves like an absent one). -/
def filteredEndpoints (methodArg tagArg : Option Str) (eps : List Endpoint) :
    List Endpoint :=
  let f1 :=
    match methodArg with
    | some m =>
      if m = [] then eps
      else eps.filter (fun e => decide (toUpperStr e.method = toUpperStr m))
    | none => eps
  match tagArg with
  | some t =>
    if t = [] then f1
    else f1.filter (fun e =>
      match e.tags with
      | some ts => decide (t ∈ ts)
      | none => false)
  | none => f1

/-- listAllEndpoints.  `args.limit` is tested for JS truthiness, so a zero
limit behaves like an absent one.  `entries` is the `limitedEndpoints` array
(the markdown rendering maps each entry to its
method/path/operationId/summary/tags). -/
def listAllEndpoints (methodArg tagArg : Option Str) (limitArg : Option Nat)
    (eps : List Endpoint) : ListAllOut :=
  let f2 := filteredEndpoints methodArg tagArg eps
  let lim :=
    match limitArg with
    | some n => if n = 0 then f2.length else n
    | none => f2.length
  let limited := f2.take lim
  { totalFound := f2.length, showing := limited.length, entries := limited }

def endpointNotFoundMsg (method path : Str) : Str :=
  "Endpoint not found: ".toList ++ method ++ " ".toList ++ path ++
    "\n\nTip: Use search_endpoints or list_all_endpoints to find the correct path.".toList

/-- getEndpointDetails: exact find on (path, uppercased method); a miss is an
`isError` text result, not a thrown error.  (The markdown produced on success
partitions the endpoint's parameters for display; the payload here is the
found endpoint itself.) -/
def getEndpointDetails (path method : Str) (eps : List Endpoint) : ToolOut Endpoint :=
  let m := toUpperStr method
  match eps.find? (fun e => decide (e.path = path) && decide (e.method = m)) with
  | some e => ToolOut.ok e
  | none => ToolOut.err (endpointNotFoundMsg m path)

def fortnoxPref : Str := "fortnox_".toList

/-- The tag match of getEndpointsByResource:
`tag.toLowerCase().includes(resource.toLowerCase()) ||
 resource.toLowerCase().includes(tag.toLowerCase().replace('fortnox_', ''))`. -/
def tagMatch (resource tag : Str) : Bool :=
  isSubstr (toLowerStr resource) (toLowerStr tag) ||
    isSubstr (replaceFirst fortnoxPref [] (toLowerStr tag)) (toLowerStr resource)

def endpointMatchesResource (resource : Str) (e : Endpoint) : Bool :=
  match e.tags with
  | some ts => ts.any (fun t => tagMatch resource t)
  | none => false

def noResourceMsg (resource : Str) : Str :=
  "No endpoints found for resource: ".toList ++ resource ++
    "\n\nTip: Use list_resource_groups to see all available resources.".toList

structure ResourceBuckets where
  total : Nat
  listOps : List Endpoint
  getOps : List Endpoint
  createOps : List Endpoint
  updateOps : List Endpoint
  deleteOps : List Endpoint

def isListOp (e : Endpoint) : Bool :=
  decide (e.method = "GET".toList) && !(e.path.contains lbrace)

def isGetOp (e : Endpoint) : Bool :=
  decide (e.method = "GET".toList) && e.path.contains lbrace

def isCreateOp (e : Endpoint) : Bool := decide (e.method = "POST".toList)

def isUpdateOp (e : Endpoint) : Bool :=
  decide (e.method = "PUT".toList) || decide (e.method = "PATCH".toList)

def isDeleteOp (e : Endpoint) : Bool := decide (e.method = "DELETE".toList)

/-- getEndpointsByResource: filter by the fuzzy tag match, error when nothing
matched, otherwise group into the five operation buckets. -/
def getEndpointsByResource (resource : Str) (eps : List Endpoint) :
    ToolOut ResourceBuckets :=
  let matching := eps.filter (endpointMatchesResource resource)
  if matching.length = 0 then ToolOut.err (noResourceMsg resource)
  else
    ToolOut.ok
      { total := matching.length
        listOps := matching.filter isListOp
        getOps := matching.filter isGetOp
        createOps := matching.filter isCreateOp
        updateOps := matching.filter isUpdateOp
        deleteOps := matching.filter isDeleteOp }

structure SearchOut where
  total : Nat
  results : List Endpoint

/-- The search predicate: case-insensitive substring match of the (already
lowercased) keyword against path, summary, description, any tag, or
operationId, combined with logical OR. -/
def matchesKeyword (k : Str) (e : Endpoint) : Bool :=
  isSubstr k (toLowerStr e.path) ||
    (match e.summary with
     | some s => isSubstr k (toLowerStr s)
     | none => false) ||
    (match e.description with
     | some d => isSubstr k (toLowerStr d)
     | none => false) ||
    (match e.tags with
     | some ts => ts.any (fun t => isSubstr k (toLowerStr t))
     | none => false) ||
    isSubstr k (toLowerStr e.operationId)

/-- searchEndpoints: filter in index order, count before truncating.  The
limit is tested for JS truthiness (`args.limit ? Number(args.limit) : 20`), so
a zero limit falls back to the default 20. -/
def searchEndpoints (keyword : Str) (limitArg : Option Nat) (eps : List Endpoint) :
    SearchOut :=
  let k := toLowerStr keyword
  let lim :=
    match limitArg with
    | some n => if n = 0 then 20 else n
    | none => 20
  let results := eps.filter (matchesKeyword k)
  { total := results.length, results := results.take lim }

/- listResourceGroups: per-tag counts, a fixed first-match category for each
tag, and the full list re-sorted via `localeCompare` on the FULL tag name
(display strips the vendor prefix).  `localeCompare` is modelled as
case-insensitive lexicographic comparison with the raw string as tiebreak. -/

def coreKeys : List Str :=
  ["Customers".toList, "Suppliers".toList, "Employees".toList, "Articles".toList,
    "Products".toList]

def financialKeys : List Str :=
  ["Invoice".toList, "Payment".toList, "Account".toList, "Currency".toList,
    "Financial".toList]

def documentKeys : List Str :=
  ["Order".toList, "Offer".toList, "Contract".toList, "Voucher".toList]

def configurationKeys : List Str :=
  ["Settings".toList, "Mode".toList, "Price".toList, "Label".toList, "Unit".toList]

/-- The first-match category index of a tag (0 Core Business, 1 Financial,
2 Documents, 3 Configuration, 4 Other); the keyword test is `tag.includes(k)`
on the full, case-sensitive tag name. -/
def catOf (tag : Str) : Nat :=
  if coreKeys.any (fun k => isSubstr k tag) then 0
  else if financialKeys.any (fun k => isSubstr k tag) then 1
  else if documentKeys.any (fun k => isSubstr k tag) then 2
  else if configurationKeys.any (fun k => isSubstr k tag) then 3
  else 4

/-- Strict lexicographic order on character lists (by code point). -/
def lexLtB : Str → Str → Bool
  | [], [] => false
  | [], _ :: _ => true
  | _ :: _, [] => false
  | a :: as, b :: bs => if a < b then true else if b < a then false else lexLtB as bs

/-- Strict order on (primary, secondary) string pairs: primary first,
secondary as tiebreak. -/
def pairLtB (a b : Str × Str) : Bool :=
  if lexLtB a.1 b.1 then true
  else if lexLtB b.1 a.1 then false
  else lexLtB a.2 b.2

/-- Sort key modelling `a[0].localeCompare(b[0])`: primary key the lowercased
tag, secondary the raw tag. -/
def tagAlphaKey (p : Str × Nat) : Str × Str := (toLowerStr p.1, p.1)

/-- `a` may precede `b` in the locale sort: `b` is not strictly before `a`. -/
def localeLe (a b : Str × Nat) : Prop :=
  pairLtB (tagAlphaKey b) (tagAlphaKey a) = false

instance : DecidableRel localeLe := fun a b =>
  inferInstanceAs (Decidable (pairLtB (tagAlphaKey b) (tagAlphaKey a) = false))

structure GroupsOut where
  total : Nat
  coreBusiness : List (Str × Nat)
  financial : List (Str × Nat)
  documents : List (Str × Nat)
  configuration : List (Str × Nat)
  other : List (Str × Nat)
  alphabetical : List (Str × Nat)

/-- listResourceGroups.  Category entries record the prefix-stripped display
name (`tag.replace('fortnox_', '')`) with the count; `alphabetical` is the
count-sorted entry list re-sorted by `localeCompare` on the full tag name
(the markdown then displays each with the prefix stripped). -/
def listResourceGroups (eps : List Endpoint) : GroupsOut :=
  let tc := tagCountsOf eps
  let sortedByCount := tc.insertionSort countGe
  let catEntries (i : Nat) : List (Str × Nat) :=
    (sortedByCount.filter (fun p => decide (catOf p.1 = i))).map
      (fun p => (replaceFirst fortnoxPref [] p.1, p.2))
  { total := sortedByCount.length
    coreBusiness := catEntries 0
    financial := catEntries 1
    documents := catEntries 2
    configuration := catEntries 3
    other := catEntries 4
    alphabetical := sortedByCount.insertionSort localeLe }

/-- getSchemaDetails: build the canonical ref string for the name and resolve. -/
def getSchemaDetails (schemaName : Str) (spec : OpenAPISpec) : ToolOut Schema :=
  match resolveSchemaRef spec (schemasRefPref ++ schemaName) with
  | some s => ToolOut.ok s
  | none => ToolOut.err ("Schema not found: ".toList ++ schemaName)

/- ---------------------------------------------------------------------
Claim-side definitions: these follow the specification's wording and are
compared against the source-translated operations above.
--------------------------------------------------------------------- -/

/-- Spec wording of the per-path traversal: one endpoint per present
operation, in the fixed order GET, POST, PUT, DELETE, PATCH. -/
def pathEndpointsCanonical (p : Str) (it : PathItem) : List Endpoint :=
  (match it.get with
   | some op => [parseOperation p ("get".toList) op]
   | none => []) ++
  (match it.post with
   | some op => [parseOperation p ("post".toList) op]
   | none => []) ++
  (match it.put with
   | some op => [parseOperation p ("put".toList) op]
   | none => []) ++
  (match it.delete with
   | some op => [parseOperation p ("delete".toList) op]
   | none => []) ++
  (match it.patch with
   | some op => [parseOperation p ("patch".toList) op]
   | none => [])

/-- Spec wording of the listAll filter, as a single conjunctive predicate:
a non-empty method filter compares case-insensitively, a non-empty tag filter
requires exact membership; an absent (or empty, by JS truthiness) filter
keeps everything. -/
def specKeep (methodArg tagArg : Option Str) (e : Endpoint) : Bool :=
  (match methodArg with
   | some m => if m = [] then true else decide (toUpperStr e.method = toUpperStr m)
   | none => true) &&
  (match tagArg with
   | some t =>
     if t = [] then true
     else
       match e.tags with
       | some ts => decide (t ∈ ts)
       | none => false
   | none => true)

/-- Case-insensitive substring occurrence, the spec's notion of keyword match
in one field. -/
def ciSub (a b : Str) : Prop := isSubstr (toLowerStr a) (toLowerStr b) = true

/-- Spec wording of the search criterion: the keyword occurs case-insensitively
in the path, the summary, the description, some tag, or the operationId. -/
def specMatch (k : Str) (e : Endpoint) : Prop :=
  ciSub k e.path ∨
    (∃ s, e.summary = some s ∧ ciSub k s) ∨
    (∃ d, e.description = some d ∧ ciSub k d) ∨
    (∃ ts, e.tags = some ts ∧ ∃ t ∈ ts, ciSub k t) ∨
    ciSub k e.operationId

/-- The resource/tag match as the claim words it: lowercase(tag) contains
lowercase(resource), or lowercase(resource) contains lowercase(tag) with the
vendor PREFIX stripped. -/
def tagMatchStripped (resource tag : Str) : Prop :=
  isSubstr (toLowerStr resource) (toLowerStr tag) = true ∨
    isSubstr (dropPref fortnoxPref (toLowerStr tag)) (toLowerStr resource) = true

/-- The resource/tag match as the code computes it: the second disjunct
removes the FIRST OCCURRENCE of `fortnox_` anywhere in the lowercased tag. -/
def tagMatchReplaced (resource tag : Str) : Prop :=
  isSubstr (toLowerStr resource) (toLowerStr tag) = true ∨
    isSubstr (replaceFirst fortnoxPref [] (toLowerStr tag)) (toLowerStr resource) = true

/-- Spec wording of the request-body schema selection. -/
def specReqSchema (op : Operation) : Option Schema :=
  match op.requestBody with
  | some rb =>
    match rb.content.head? with
    | some (contentType, sch) => if contentType = [] then none else some sch
    | none => none
  | none => none

def schemaOfResp (r : Response) : Option Schema :=
  match r.content with
  | some cs =>
    match cs.head? with
    | some (contentType, sch) => if contentType = [] then none else some sch
    | none => none
  | none => none

/-- Spec wording of the response schema selection: the `200` response when
present, else the `201` response, else nothing. -/
def specRespSchema (op : Operation) : Option Schema :=
  match op.responses.lookup ("200".toList) with
  | some r => schemaOfResp r
  | none =>
    match op.responses.lookup ("201".toList) with
    | some r => schemaOfResp r
    | none => none

/-- The uppercased methods an index endpoint can carry. -/
def methodsU : List Str :=
  ["GET".toList, "POST".toList, "PUT".toList, "DELETE".toList, "PATCH".toList]

/-- First-seen order of the keys of a scan, the spec's tie-break order. -/
def firstSeen (ks : List Str) : List Str :=
  ks.foldl (fun acc k => if k ∈ acc then acc else acc ++ [k]) []

/-- Folding `bump` over a list of keys (the counter-object loops). -/
def bumpAll (ks : List Str) (m : List (Str × Nat)) : List (Str × Nat) :=
  ks.foldl (fun acc k => bump k acc) m

def tagsD (e : Endpoint) : List Str := e.tags.getD []

/- ---------------------------------------------------------------------
Concrete fixtures used by counterexamples and witnesses.
--------------------------------------------------------------------- -/

def mkOpF (oid : Str) (tags : Option (List Str)) (summary : Option Str) : Operation :=
  Operation.mk oid summary none tags none none []

def eA : Endpoint :=
  parseOperation "/a".toList "get".toList
    (mkOpF "geta".toList (some ["Apple".toList]) none)

def eB : Endpoint :=
  parseOperation "/b".toList "get".toList
    (mkOpF "getb".toList (some ["fortnox_Aaa".toList]) none)

def eZ : Endpoint :=
  parseOperation "/z".toList "put".toList
    (mkOpF "putz".toList (some ["afortnox_b".toList]) none)

def eC : Endpoint :=
  parseOperation "/c".toList "get".toList
    (mkOpF "getc".toList (some ["B".toList]) none)

def eD : Endpoint :=
  parseOperation "/d".toList "get".toList
    (mkOpF "getd".toList (some ["A".toList, "B".toList]) none)

def itCustomers : PathItem :=
  PathItem.mk
    (some (mkOpF "listCustomers".toList (some ["fortnox_Customers".toList]) none))
    (some (mkOpF "createCustomer".toList (some ["fortnox_Customers".toList]) none))
    none none none

def specC : OpenAPISpec :=
  OpenAPISpec.mk (Info.mk "t".toList none none) [ServerEntry.mk "u".toList none]
    [("/3/customers".toList, itCustomers)] []

/-- A schema whose description is present but empty. -/
def tgtEmptyDesc : Schema := Schema.mk none (some []) none none none

/-- A spec with no servers and one component schema `X` (empty description). -/
def specNoServers : OpenAPISpec :=
  OpenAPISpec.mk (Info.mk "t".toList none none) [] []
    [("X".toList, tgtEmptyDesc)]

def refX : Str := "#/components/schemas/X".toList

def sRefX : Schema := Schema.mk none none (some refX) none none

/-- The schema stored under an empty media-type key in the request body
counterexample. -/
def strSchema : Schema := Schema.mk (some ("string".toList)) none none none none

def opEmptyCT : Operation :=
  Operation.mk "x".toList none none none none
    (some (RequestBody.mk none none [([], strSchema)])) []

def respOf (t : Str) : Response :=
  Response.mk []
    (some [("application/json".toList, Schema.mk (some t) none none none none)])

def op201 : Operation :=
  Operation.mk "y".toList none none none none none
    [("404".toList, respOf "bad".toList), ("201".toList, respOf "good".toList)]

/-- A parse result missing `info` and `components.schemas` but carrying
(empty) `paths`. -/
def rawNoInfo : RawDoc := RawDoc.mk none none (some []) none

def cListEp : Endpoint :=
  parseOperation "/3/customers".toList "get".toList
    (mkOpF "listCustomers".toList (some ["fortnox_Customers".toList]) none)

def cCreateEp : Endpoint :=
  parseOperation "/3/customers".toList "post".toList
    (mkOpF "createCustomer".toList (some ["fortnox_Customers".toList]) none)

/-- The buckets getEndpointsByResource produces on `specC`. -/
def bCustomers : ResourceBuckets :=
  ResourceBuckets.mk 2 [cListEp] [] [cCreateEp] [] []

/-- A responses map agreeing with `op201` on the `200` and `201` keys but
differing elsewhere. -/
def rs201 : List (Str × Response) :=
  [("201".toList, respOf "good".toList), ("500".toList, respOf "junk".toList)]

/- ---------------------------------------------------------------------
Helper lemmas.
--------------------------------------------------------------------- -/

lemma isSubstr_append_right (n t : Str) (h : isSubstr n t = true) :
    ∀ s : Str, isSubstr n (s ++ t) = true := by
  intro s
  induction s with
  | nil => simpa using h
  | cons c s ih =>
    simp only [List.cons_append, isSubstr, Bool.or_eq_true]
    exact Or.inr ih

lemma lookupCount_bump (j k : Str) (m : List (Str × Nat)) :
    lookupCount k (bump j m) = lookupCount k m + (if j = k then 1 else 0) := by
  induction m with
  | nil =>
    simp only [bump, lookupCount]
    by_cases h : j = k <;> simp [h]
  | cons p t ih =>
    obtain ⟨k2, v⟩ := p
    by_cases h2 : k2 = j
    · subst h2
      simp only [bump, if_pos rfl, lookupCount]
      by_cases h3 : k2 = k <;> simp [h3]
    · simp only [bump, if_neg h2, lookupCount]
      by_cases h3 : k2 = k
      · have hjk : ¬ j = k := fun hj => h2 (h3.trans hj.symm)
        simp [h3, hjk]
      · simp [h3, ih]

lemma lookupCount_bumpAll (ks : List Str) (m : List (Str × Nat)) (k : Str) :
    lookupCount k (bumpAll ks m) =
      lookupCount k m + ks.countP (fun j => decide (j = k)) := by
  induction ks generalizing m with
  | nil => simp [bumpAll]
  | cons j t ih =>
    simp only [bumpAll, List.foldl_cons] at ih ⊢
    rw [ih (bump j m), lookupCount_bump, List.countP_cons]
    by_cases h : j = k <;> simp [h] <;> omega

lemma map_fst_bump (j : Str) (m : List (Str × Nat)) :
    (bump j m).map Prod.fst =
      if j ∈ m.map Prod.fst then m.map Prod.fst else m.map Prod.fst ++ [j] := by
  induction m with
  | nil => simp [bump]
  | cons p t ih =>
    obtain ⟨k2, v⟩ := p
    by_cases h2 : k2 = j
    · subst h2
      simp [bump]
    · simp only [bump, if_neg h2, List.map_cons, ih, List.mem_cons]
      have hne : ¬ j = k2 := fun h => h2 h.symm
      by_cases hm : j ∈ t.map Prod.fst <;> simp [hm, hne]

lemma map_fst_bumpAll (ks : List Str) (m : List (Str × Nat)) :
    (bumpAll ks m).map Prod.fst =
      ks.foldl (fun acc k => if k ∈ acc then acc else acc ++ [k]) (m.map Prod.fst) := by
  induction ks generalizing m with
  | nil => rfl
  | cons j t ih =>
    simp only [bumpAll, List.foldl_cons] at ih ⊢
    rw [ih (bump j m), map_fst_bump]

lemma nodup_keyFold (ks : List Str) (acc : List Str) (h : acc.Nodup) :
    (ks.foldl (fun acc k => if k ∈ acc then acc else acc ++ [k]) acc).Nodup := by
  induction ks generalizing acc with
  | nil => exact h
  | cons j t ih =>
    simp only [List.foldl_cons]
    apply ih
    by_cases hm : j ∈ acc
    · simpa [hm] using h
    · simp [hm, List.nodup_append, h]

lemma nodup_keys_bumpAll (ks : List Str) :
    ((bumpAll ks []).map Prod.fst).Nodup := by
  rw [map_fst_bumpAll]
  exact nodup_keyFold ks [] List.nodup_nil

lemma lookupCount_of_mem (m : List (Str × Nat)) (hnd : (m.map Prod.fst).Nodup)
    (p : Str × Nat) (hp : p ∈ m) : lookupCount p.1 m = p.2 := by
  induction m with
  | nil => cases hp
  | cons q t ih =>
    obtain ⟨k2, v⟩ := q
    rcases List.mem_cons.mp hp with h | h
    · subst h
      simp [lookupCount]
    · have hk2 : k2 ∉ t.map Prod.fst := by
        simp only [List.map_cons, List.nodup_cons] at hnd
        exact hnd.1
      have hne : ¬ k2 = p.1 := by
        intro he
        exact hk2 (he ▸ List.mem_map_of_mem Prod.fst h)
      simp only [lookupCount, if_neg hne]
      exact ih (by simpa using (List.nodup_cons.mp (by simpa using hnd)).2) h

lemma methodCountsOf_eq_bumpAll (eps : List Endpoint) :
    methodCountsOf eps = bumpAll (eps.map Endpoint.method) [] := by
  simp only [methodCountsOf, bumpAll, List.foldl_map]

lemma tagCountsOf_eq_bumpAll (eps : List Endpoint) :
    tagCountsOf eps = bumpAll (eps.flatMap tagsD) [] := by
  suffices h : ∀ m : List (Str × Nat),
      eps.foldl
        (fun m e =>
          match e.tags with
          | some ts => ts.foldl (fun m2 t => bump t m2) m
          | none => m)
        m = bumpAll (eps.flatMap tagsD) m from h []
  induction eps with
  | nil => intro m; rfl
  | cons e t ih =>
    intro m
    have hstep :
        (match e.tags with
          | some ts => ts.foldl (fun m2 t => bump t m2) m
          | none => m) = bumpAll (tagsD e) m := by
      cases h : e.tags with
      | none => simp [tagsD, h, bumpAll]
      | some ts => simp [tagsD, h, bumpAll]
    simp only [List.foldl_cons, List.flatMap_cons, hstep, bumpAll, List.foldl_append]
    exact ih (bumpAll (tagsD e) m)

lemma lookupCount_tagCountsOf (eps : List Endpoint) (t : Str) :
    lookupCount t (tagCountsOf eps) =
      (eps.flatMap tagsD).countP (fun x => decide (x = t)) := by
  rw [tagCountsOf_eq_bumpAll, lookupCount_bumpAll]
  simp [lookupCount]

lemma lookupCount_methodCountsOf (eps : List Endpoint) (m : Str) :
    lookupCount m (methodCountsOf eps) =
      eps.countP (fun e => decide (e.method = m)) := by
  rw [methodCountsOf_eq_bumpAll, lookupCount_bumpAll, List.countP_map]
  simp only [lookupCount, Nat.zero_add]
  rfl

lemma tagKeys_firstSeen (eps : List Endpoint) :
    (tagCountsOf eps).map Prod.fst = firstSeen (eps.flatMap tagsD) := by
  rw [tagCountsOf_eq_bumpAll, map_fst_bumpAll]
  rfl

lemma lexLtB_irrefl : ∀ a : Str, lexLtB a a = false := by
  intro a
  induction a with
  | nil => rfl
  | cons x as ih =>
    simp only [lexLtB, if_neg (lt_irrefl x)]
    exact ih

lemma lexLtB_asymm : ∀ a b : Str, lexLtB a b = true → lexLtB b a = false := by
  intro a
  induction a with
  | nil =>
    intro b h
    cases b with
    | nil => cases h
    | cons y bs => rfl
  | cons x as ih =>
    intro b h
    cases b with
    | nil => cases h
    | cons y bs =>
      simp only [lexLtB] at h ⊢
      by_cases h1 : x < y
      · rw [if_neg (lt_asymm h1), if_pos h1]
      · by_cases h2 : y < x
        · rw [if_neg h1, if_pos h2] at h
          cases h
        · rw [if_neg h1, if_neg h2] at h
          rw [if_neg h2, if_neg h1]
          exact ih bs h

lemma lexLtB_eq_of_not : ∀ a b : Str,
    lexLtB a b = false → lexLtB b a = false → a = b := by
  intro a
  induction a with
  | nil =>
    intro b h1 _
    cases b with
    | nil => rfl
    | cons y bs => cases h1
  | cons x as ih =>
    intro b h1 h2
    cases b with
    | nil => cases h2
    | cons y bs =>
      simp only [lexLtB] at h1 h2
      by_cases hxy : x < y
      · rw [if_pos hxy] at h1; cases h1
      · by_cases hyx : y < x
        · rw [if_pos hyx] at h2; cases h2
        · have hx : x = y := le_antisymm (not_lt.mp hyx) (not_lt.mp hxy)
          rw [if_neg hxy, if_neg hyx] at h1
          rw [if_neg hyx, if_neg hxy] at h2
          rw [hx, ih bs h1 h2]

lemma lexLtB_trans : ∀ a b c : Str,
    lexLtB a b = true → lexLtB b c = true → lexLtB a c = true := by
  intro a
  induction a with
  | nil =>
    intro b c h1 h2
    cases b with
    | nil => cases h1
    | cons y bs =>
      cases c with
      | nil => cases h2
      | cons z cs => rfl
  | cons x as ih =>
    intro b c h1 h2
    cases b with
    | nil => cases h1
    | cons y bs =>
      cases c with
      | nil => cases h2
      | cons z cs =>
        simp only [lexLtB] at h1 h2 ⊢
        by_cases hxy : x < y
        · by_cases hyz : y < z
          · rw [if_pos (lt_trans hxy hyz)]
          · by_cases hzy : z < y
            · rw [if_neg hyz, if_pos hzy] at h2; cases h2
            · have hyzeq : y = z := le_antisymm (not_lt.mp hzy) (not_lt.mp hyz)
              rw [if_pos (hyzeq ▸ hxy)]
        · by_cases hyx : y < x
          · rw [if_neg hxy, if_pos hyx] at h1; cases h1
          · have hxyeq : x = y := le_antisymm (not_lt.mp hyx) (not_lt.mp hxy)
            rw [if_neg hxy, if_neg hyx] at h1
            by_cases hyz : y < z
            · rw [if_pos (hxyeq ▸ hyz : x < z)]
            · by_cases hzy : z < y
              · rw [if_neg hyz, if_pos hzy] at h2; cases h2
              · have hyzeq : y = z := le_antisymm (not_lt.mp hzy) (not_lt.mp hyz)
                rw [if_neg hyz, if_neg hzy] at h2
                have hxz : x = z := hxyeq.trans hyzeq
                rw [if_neg (hxz ▸ lt_irrefl x), if_neg (hxz ▸ lt_irrefl x)]
                exact ih bs cs h1 h2

lemma pairLtB_asymm (a b : Str × Str) (h : pairLtB a b = true) :
    pairLtB b a = false := by
  unfold pairLtB at h ⊢
  by_cases h1 : lexLtB a.1 b.1 = true
  · rw [lexLtB_asymm _ _ h1, if_pos h1]
    rfl
  · have h1f : lexLtB a.1 b.1 = false := Bool.eq_false_iff.mpr h1
    by_cases hba : lexLtB b.1 a.1 = true
    · rw [h1f, hba] at h
      cases h
    · have hbaf : lexLtB b.1 a.1 = false := Bool.eq_false_iff.mpr hba
      rw [h1f, hbaf] at h
      simp only [Bool.false_eq_true, if_false] at h
      rw [hbaf, h1f]
      simp only [Bool.false_eq_true, if_false]
      exact lexLtB_asymm _ _ h

lemma pairLtB_eq_of_not (a b : Str × Str) (h1 : pairLtB a b = false)
    (h2 : pairLtB b a = false) : a = b := by
  unfold pairLtB at h1 h2
  by_cases hab : lexLtB a.1 b.1 = true
  · rw [hab] at h1
    cases h1
  · have habf : lexLtB a.1 b.1 = false := Bool.eq_false_iff.mpr hab
    by_cases hba : lexLtB b.1 a.1 = true
    · rw [hba] at h2
      cases h2
    · have hbaf : lexLtB b.1 a.1 = false := Bool.eq_false_iff.mpr hba
      rw [habf, hbaf] at h1
      rw [hbaf, habf] at h2
      simp only [Bool.false_eq_true, if_false] at h1 h2
      obtain ⟨a1, a2⟩ := a
      obtain ⟨b1, b2⟩ := b
      simp only at habf hbaf h1 h2
      rw [lexLtB_eq_of_not a1 b1 habf hbaf, lexLtB_eq_of_not a2 b2 h1 h2]

lemma pairLtB_trans (a b c : Str × Str) (h1 : pairLtB a b = true)
    (h2 : pairLtB b c = true) : pairLtB a c = true := by
  unfold pairLtB at h1 h2 ⊢
  by_cases hab : lexLtB a.1 b.1 = true
  · by_cases hbc : lexLtB b.1 c.1 = true
    · rw [lexLtB_trans _ _ _ hab hbc]
      rfl
    · have hbcf : lexLtB b.1 c.1 = false := Bool.eq_false_iff.mpr hbc
      by_cases hcb : lexLtB c.1 b.1 = true
      · rw [hbcf, hcb] at h2
        cases h2
      · have hcbf : lexLtB c.1 b.1 = false := Bool.eq_false_iff.mpr hcb
        have heq : b.1 = c.1 := lexLtB_eq_of_not _ _ hbcf hcbf
        have hac : lexLtB a.1 c.1 = true := by rw [← heq]; exact hab
        rw [hac]
        rfl
  · have habf : lexLtB a.1 b.1 = false := Bool.eq_false_iff.mpr hab
    by_cases hba : lexLtB b.1 a.1 = true
    · rw [habf, hba] at h1
      cases h1
    · have hbaf : lexLtB b.1 a.1 = false := Bool.eq_false_iff.mpr hba
      have habeq : a.1 = b.1 := lexLtB_eq_of_not _ _ habf hbaf
      rw [habf, hbaf] at h1
      simp only [Bool.false_eq_true, if_false] at h1
      by_cases hbc : lexLtB b.1 c.1 = true
      · rw [(habeq ▸ hbc : lexLtB a.1 c.1 = true)]
        rfl
      · have hbcf : lexLtB b.1 c.1 = false := Bool.eq_false_iff.mpr hbc
        by_cases hcb : lexLtB c.1 b.1 = true
        · rw [hbcf, hcb] at h2
          cases h2
        · have hcbf : lexLtB c.1 b.1 = false := Bool.eq_false_iff.mpr hcb
          have hbceq : b.1 = c.1 := lexLtB_eq_of_not _ _ hbcf hcbf
          rw [hbcf, hcbf] at h2
          simp only [Bool.false_eq_true, if_false] at h2
          have haceq : a.1 = c.1 := habeq.trans hbceq
          have hacf : lexLtB a.1 c.1 = false := by
            rw [haceq]; exact lexLtB_irrefl c.1
          have hcaf : lexLtB c.1 a.1 = false := by
            rw [haceq]; exact lexLtB_irrefl c.1
          rw [hacf, hcaf]
          simp only [Bool.false_eq_true, if_false]
          exact lexLtB_trans _ _ _ h1 h2

instance : IsTotal (Str × Nat) localeLe :=
  ⟨fun a b => by
    unfold localeLe
    cases h : pairLtB (tagAlphaKey b) (tagAlphaKey a) with
    | false => exact Or.inl rfl
    | true => exact Or.inr (pairLtB_asymm _ _ h)⟩

instance : IsTrans (Str × Nat) localeLe :=
  ⟨fun a b c hab hbc => by
    unfold localeLe at hab hbc ⊢
    cases h : pairLtB (tagAlphaKey c) (tagAlphaKey a) with
    | false => rfl
    | true =>
      exfalso
      by_cases hab2 : pairLtB (tagAlphaKey a) (tagAlphaKey b) = true
      · have := pairLtB_trans _ _ _ h hab2
        rw [this] at hbc
        cases hbc
      · have hab2f : pairLtB (tagAlphaKey a) (tagAlphaKey b) = false :=
          Bool.eq_false_iff.mpr hab2
        have heq : tagAlphaKey b = tagAlphaKey a :=
          pairLtB_eq_of_not _ _ hab hab2f
        rw [← heq] at h
        rw [h] at hbc
        cases hbc⟩

/-- Stability of the count-descending insertion sort, phrased per count class:
the entries carrying any fixed count keep their original relative order. -/
lemma filter_orderedInsert_count (x : Str × Nat) (s : List (Str × Nat)) (c : Nat) :
    (s.orderedInsert countGe x).filter (fun p => decide (p.2 = c)) =
      if x.2 = c then x :: s.filter (fun p => decide (p.2 = c))
      else s.filter (fun p => decide (p.2 = c)) := by
  induction s with
  | nil =>
    simp only [List.orderedInsert, List.filter]
    split_ifs with h1 <;> simp [h1]
  | cons y t ih =>
    simp only [List.orderedInsert]
    by_cases h : countGe x y
    · rw [if_pos h]
      by_cases hx : x.2 = c <;> simp [List.filter_cons, hx]
    · rw [if_neg h]
      by_cases hx : x.2 = c
      · have hy : ¬ y.2 = c := by
          intro hyc
          exact h (Nat.le_of_eq (hyc.trans hx.symm))
        simp [List.filter_cons, hx, hy, ih]
      · by_cases hy : y.2 = c <;> simp [List.filter_cons, hx, hy, ih]

lemma filter_insertionSort_count (l : List (Str × Nat)) (c : Nat) :
    (l.insertionSort countGe).filter (fun p => decide (p.2 = c)) =
      l.filter (fun p => decide (p.2 = c)) := by
  induction l with
  | nil => rfl
  | cons x t ih =>
    simp only [List.insertionSort, filter_orderedInsert_count, ih]
    by_cases hx : x.2 = c <;> simp [List.filter_cons, hx]

lemma pathEndpoints_eq_canonical (p : Str) (it : PathItem) :
    pathEndpoints p it = pathEndpointsCanonical p it := by
  obtain ⟨g, po, pu, d, pa⟩ := it
  cases g <;> cases po <;> cases pu <;> cases d <;> cases pa <;> rfl

def isOkE {α : Type} : Except Str α → Bool
  | Except.ok _ => true
  | Except.error _ => false

/- ---------------------------------------------------------------------
Claim theorems.
--------------------------------------------------------------------- -/

/-- C1: the endpoint index is built by iterating paths in the document's own
key order and, within each path, trying the methods in the fixed order GET,
POST, PUT, DELETE, PATCH, emitting one endpoint per present operation; listAll
with no filters returns exactly this index (every endpoint once, in traversal
order), with matching total and shown counts. -/
theorem listAll_returns_index_in_traversal_order (spec : OpenAPISpec) :
    getAllEndpoints spec =
        spec.paths.flatMap (fun pr => pathEndpointsCanonical pr.1 pr.2)
      ∧ (listAllEndpoints none none none (getAllEndpoints spec)).entries =
          getAllEndpoints spec
      ∧ (listAllEndpoints none none none (getAllEndpoints spec)).totalFound =
          (getAllEndpoints spec).length
      ∧ (listAllEndpoints none none none (getAllEndpoints spec)).showing =
          (getAllEndpoints spec).length := by
  refine ⟨?_, ?_, ?_, ?_⟩
  · unfold getAllEndpoints
    simp only [pathEndpoints_eq_canonical]
  · simp [listAllEndpoints, filteredEndpoints, List.take_length]
  · simp [listAllEndpoints, filteredEndpoints]
  · simp [listAllEndpoints, filteredEndpoints, List.take_length]

/-- C2 (counterexample): a parsed document missing `info` and
`components.schemas` is accepted by the loader without any error, and the
server goes on to build its (empty) endpoint index and serve queries — the
loader does not validate the required top-level fields. -/
theorem loadSpec_accepts_missing_fields :
    rawNoInfo.info = none ∧ rawNoInfo.componentsSchemas = none
      ∧ loadSpec (some rawNoInfo) = Except.ok rawNoInfo
      ∧ indexFromRaw rawNoInfo = Except.ok [] :=
  ⟨rfl, rfl, rfl, rfl⟩

/-- C2 (amended): the loader fails exactly when the content is not parseable;
it performs no validation of `info`, `paths` or `components.schemas`.  A
document without `paths` still fails before queries are served (the index
construction throws), while missing `info`/`components.schemas` go
unnoticed. -/
theorem loadSpec_parse_only :
    isOkE (loadSpec none) = false
      ∧ (∀ d : RawDoc, loadSpec (some d) = Except.ok d)
      ∧ (∀ d : RawDoc, isOkE (indexFromRaw d) = d.paths.isSome) := by
  refine ⟨rfl, fun _ => rfl, fun d => ?_⟩
  cases h : d.paths <;> simp [indexFromRaw, h, isOkE]

/-- C6: getEndpointDetails looks up the exact path with the method uppercased;
a found endpoint carries exactly the requested key, and a miss produces the
error-marked not-found message, which mentions the discovery operations
search_endpoints and list_all_endpoints. -/
theorem getEndpointDetails_key_and_notfound (path method : Str)
    (eps : List Endpoint) :
    (∀ e, getEndpointDetails path method eps = ToolOut.ok e →
        e.path = path ∧ e.method = toUpperStr method)
      ∧ ((∀ e ∈ eps, ¬(e.path = path ∧ e.method = toUpperStr method)) →
          getEndpointDetails path method eps =
              ToolOut.err (endpointNotFoundMsg (toUpperStr method) path)
            ∧ isSubstr ("search_endpoints".toList)
                (endpointNotFoundMsg (toUpperStr method) path) = true
            ∧ isSubstr ("list_all_endpoints".toList)
                (endpointNotFoundMsg (toUpperStr method) path) = true) := by
  constructor
  · intro e he
    simp only [getEndpointDetails] at he
    cases hf : List.find?
        (fun x => decide (x.path = path) && decide (x.method = toUpperStr method))
        eps with
    | none => rw [hf] at he; cases he
    | some e2 =>
      rw [hf] at he
      cases he
      have hp := List.find?_some hf
      simp only [Bool.and_eq_true, decide_eq_true_eq] at hp
      exact hp
  · intro h
    have hf : List.find?
        (fun x => decide (x.path = path) && decide (x.method = toUpperStr method))
        eps = none := by
      rw [List.find?_eq_none]
      intro x hx
      simp only [Bool.and_eq_true, decide_eq_true_eq, not_and]
      exact fun h1 h2 => h x hx ⟨h1, h2⟩
    refine ⟨?_, ?_, ?_⟩
    · simp only [getEndpointDetails, hf]
    · unfold endpointNotFoundMsg
      exact isSubstr_append_right _ _ (by decide) _
    · unfold endpointNotFoundMsg
      exact isSubstr_append_right _ _ (by decide) _

/-- C6 witness: a lookup on the empty index yields the not-found message with
the discovery hints, and a successful lookup returns the requested key. -/
theorem getEndpointDetails_key_and_notfound_w :
    (getEndpointDetails ("/q".toList) ("get".toList) [] =
          ToolOut.err (endpointNotFoundMsg (toUpperStr ("get".toList)) ("/q".toList))
        ∧ isSubstr ("search_endpoints".toList)
            (endpointNotFoundMsg (toUpperStr ("get".toList)) ("/q".toList)) = true
        ∧ isSubstr ("list_all_endpoints".toList)
            (endpointNotFoundMsg (toUpperStr ("get".toList)) ("/q".toList)) = true)
      ∧ (eC.path = "/c".toList ∧ eC.method = toUpperStr ("get".toList)) :=
  ⟨(getEndpointDetails_key_and_notfound ("/q".toList) ("get".toList) []).2
      (by simp),
    (getEndpointDetails_key_and_notfound ("/c".toList) ("get".toList) [eC]).1
      eC rfl⟩

lemma filteredEndpoints_eq (mf tf : Option Str) (eps : List Endpoint) :
    filteredEndpoints mf tf eps = eps.filter (specKeep mf tf) := by
  rcases mf with _ | m <;> rcases tf with _ | t
  · rw [show specKeep none none = fun _ : Endpoint => true from
      funext fun e => by simp [specKeep]]
    simp [filteredEndpoints]
  · by_cases ht : t = []
    · rw [ht, show specKeep none (some []) = fun _ : Endpoint => true from
        funext fun e => by simp [specKeep]]
      simp [filteredEndpoints]
    · rw [show specKeep none (some t) = fun e : Endpoint =>
          (match e.tags with
            | some ts => decide (t ∈ ts)
            | none => false) from funext fun e => by simp [specKeep, ht]]
      simp [filteredEndpoints, ht]
  · by_cases hm : m = []
    · rw [hm, show specKeep (some []) none = fun _ : Endpoint => true from
        funext fun e => by simp [specKeep]]
      simp [filteredEndpoints]
    · rw [show specKeep (some m) none = fun e : Endpoint =>
          decide (toUpperStr e.method = toUpperStr m) from
        funext fun e => by simp [specKeep, hm]]
      simp [filteredEndpoints, hm]
  · by_cases hm : m = [] <;> by_cases ht : t = []
    · rw [hm, ht, show specKeep (some []) (some []) = fun _ : Endpoint => true from
        funext fun e => by simp [specKeep]]
      simp [filteredEndpoints]
    · rw [hm, show specKeep (some []) (some t) = fun e : Endpoint =>
          (match e.tags with
            | some ts => decide (t ∈ ts)
            | none => false) from funext fun e => by simp [specKeep, ht]]
      simp [filteredEndpoints, ht]
    · rw [ht, show specKeep (some m) (some []) = fun e : Endpoint =>
          decide (toUpperStr e.method = toUpperStr m) from
        funext fun e => by simp [specKeep, hm]]
      simp [filteredEndpoints, hm]
    · rw [show specKeep (some m) (some t) = fun e : Endpoint =>
          (decide (toUpperStr e.method = toUpperStr m) &&
            match e.tags with
            | some ts => decide (t ∈ ts)
            | none => false) from funext fun e => by simp [specKeep, hm, ht]]
      simp only [filteredEndpoints, hm, ht, if_false, List.filter_filter]
      exact List.filter_congr fun a _ => Bool.and_comm _ _

/-- C3 (counterexample): a limit of 0 is a given limit, yet listAllEndpoints
does not truncate to the first 0 entries — JS truthiness treats it as
absent. -/
theorem listAll_zero_limit_not_truncated :
    (listAllEndpoints none none (some 0) [eC]).entries = [eC]
      ∧ [eC] ≠ List.take 0 [eC] :=
  ⟨rfl, by simp⟩

/-- C3 (amended): listAll keeps exactly the endpoints passing the conjunction
of the method filter (case-insensitive, when given non-empty) and the tag
filter (exact member, when given non-empty), preserving index order; a
NONZERO limit truncates to the first `limit` entries of the filtered
sequence, while a zero or absent limit shows everything; the total filtered
count is taken before truncation and the shown count after. -/
theorem listAll_filters_and_truncation (mf tf : Option Str) (lim : Option Nat)
    (eps : List Endpoint) :
    (∀ e, e ∈ filteredEndpoints mf tf eps ↔ e ∈ eps ∧ specKeep mf tf e = true)
      ∧ List.Sublist (filteredEndpoints mf tf eps) eps
      ∧ (listAllEndpoints mf tf lim eps).totalFound =
          (filteredEndpoints mf tf eps).length
      ∧ (∀ n, lim = some n → n ≠ 0 →
          (listAllEndpoints mf tf lim eps).entries =
            (filteredEndpoints mf tf eps).take n)
      ∧ ((lim = none ∨ lim = some 0) →
          (listAllEndpoints mf tf lim eps).entries = filteredEndpoints mf tf eps)
      ∧ (listAllEndpoints mf tf lim eps).showing =
          (listAllEndpoints mf tf lim eps).entries.length := by
  refine ⟨?_, ?_, rfl, ?_, ?_, rfl⟩
  · intro e
    rw [filteredEndpoints_eq, List.mem_filter]
  · rw [filteredEndpoints_eq]
    exact List.filter_sublist eps
  · intro n hn hnz
    subst hn
    simp [listAllEndpoints, hnz]
  · rintro (h | h) <;> subst h <;> simp [listAllEndpoints, List.take_length]

/-- C3 witness: with method filter GET and limit 1 on a two-endpoint index the
entries are the first 1 of the filtered sequence. -/
theorem listAll_filters_and_truncation_w :
    (listAllEndpoints (some ("get".toList)) none (some 1) [eC, eD]).entries =
      (filteredEndpoints (some ("get".toList)) none [eC, eD]).take 1 :=
  (listAll_filters_and_truncation (some ("get".toList)) none (some 1)
      [eC, eD]).2.2.2.1 1 rfl (by decide)

lemma matchesKeyword_iff (k : Str) (e : Endpoint) :
    matchesKeyword (toLowerStr k) e = true ↔ specMatch k e := by
  unfold matchesKeyword specMatch ciSub
  cases hs : e.summary <;> cases hd : e.description <;> cases ht : e.tags <;>
    simp [List.any_eq_true, or_assoc]

/-- C4 (counterexample): `search(k, limit=0)` still returns results (JS
truthiness replaces a zero limit by the default 20), contradicting "the
returned list is the first `limit` matches". -/
theorem search_zero_limit_defaults_to_20 :
    (searchEndpoints ("apple".toList) (some 0) [eA]).results = [eA]
      ∧ [eA] ≠ List.take 0 [eA] :=
  ⟨rfl, by simp⟩

/-- C4 (amended): an endpoint is in the match set of search(k) iff k occurs
case-insensitively in its path, summary, description, operationId or a tag;
matches keep original index order; the total is counted before truncation;
the result is the first `limit` matches for a nonzero limit, and the first 20
when the limit is absent or zero. -/
theorem search_match_set_order_count (k : Str) (lim : Option Nat)
    (eps : List Endpoint) :
    (∀ e, e ∈ eps.filter (matchesKeyword (toLowerStr k)) ↔
        e ∈ eps ∧ specMatch k e)
      ∧ List.Sublist (eps.filter (matchesKeyword (toLowerStr k))) eps
      ∧ (searchEndpoints k lim eps).total =
          (eps.filter (matchesKeyword (toLowerStr k))).length
      ∧ (∀ n, lim = some n → n ≠ 0 →
          (searchEndpoints k lim eps).results =
            (eps.filter (matchesKeyword (toLowerStr k))).take n)
      ∧ ((lim = none ∨ lim = some 0) →
          (searchEndpoints k lim eps).results =
            (eps.filter (matchesKeyword (toLowerStr k))).take 20) := by
  refine ⟨?_, List.filter_sublist eps, rfl, ?_, ?_⟩
  · intro e
    rw [List.mem_filter, matchesKeyword_iff]
  · intro n hn hnz
    subst hn
    simp [searchEndpoints, hnz]
  · rintro (h | h) <;> subst h <;> simp [searchEndpoints]

/-- C4 witness: keyword apple with limit 1 on a two-endpoint index yields the
first 1 of the match list. -/
theorem search_match_set_order_count_w :
    (searchEndpoints ("apple".toList) (some 1) [eA, eB]).results =
      ([eA, eB].filter (matchesKeyword (toLowerStr ("apple".toList)))).take 1 :=
  (search_match_set_order_count ("apple".toList) (some 1) [eA, eB]).2.2.2.1
    1 rfl (by decide)

lemma endpointMatchesResource_iff (r : Str) (e : Endpoint) :
    endpointMatchesResource r e = true ↔
      ∃ ts, e.tags = some ts ∧ ∃ t ∈ ts, tagMatchReplaced r t := by
  unfold endpointMatchesResource tagMatch tagMatchReplaced
  cases ht : e.tags <;> simp [List.any_eq_true]

lemma method_mem_getAllEndpoints (spec : OpenAPISpec) :
    ∀ e ∈ getAllEndpoints spec, e.method ∈ methodsU := by
  intro e he
  unfold getAllEndpoints at he
  rw [List.mem_flatMap] at he
  obtain ⟨pr, _, hpe⟩ := he
  unfold pathEndpoints at hpe
  rw [List.mem_filterMap] at hpe
  obtain ⟨m, hm, hop⟩ := hpe
  rw [Option.map_eq_some'] at hop
  obtain ⟨op, _, hope⟩ := hop
  subst hope
  simp only [methodOrder, List.mem_cons, List.not_mem_nil, or_false] at hm
  rcases hm with h | h | h | h | h
  · subst h; exact (by decide : toUpperStr ("get".toList) ∈ methodsU)
  · subst h; exact (by decide : toUpperStr ("post".toList) ∈ methodsU)
  · subst h; exact (by decide : toUpperStr ("put".toList) ∈ methodsU)
  · subst h; exact (by decide : toUpperStr ("delete".toList) ∈ methodsU)
  · subst h; exact (by decide : toUpperStr ("patch".toList) ∈ methodsU)

lemma length_filter_cons {α : Type} (p : α → Bool) (x : α) (t : List α) :
    (List.filter p (x :: t)).length =
      (cond (p x) 1 0) + (List.filter p t).length := by
  cases h : p x <;> simp [List.filter_cons, h, Nat.add_comm]

lemma bucketFlags_sum (e : Endpoint) (hm : e.method ∈ methodsU) :
    (cond (isListOp e) 1 0) + (cond (isGetOp e) 1 0) + (cond (isCreateOp e) 1 0) +
      (cond (isUpdateOp e) 1 0) + (cond (isDeleteOp e) 1 0) = 1 := by
  simp only [methodsU, List.mem_cons, List.not_mem_nil, or_false] at hm
  rcases hm with h | h | h | h | h <;> cases hb : e.path.contains lbrace <;>
    (simp only [isListOp, isGetOp, isCreateOp, isUpdateOp, isDeleteOp, h, hb]
     decide)

lemma five_filter_length_sum (l : List Endpoint)
    (h : ∀ e ∈ l, e.method ∈ methodsU) :
    (l.filter isListOp).length + (l.filter isGetOp).length +
      (l.filter isCreateOp).length + (l.filter isUpdateOp).length +
      (l.filter isDeleteOp).length = l.length := by
  induction l with
  | nil => rfl
  | cons e t ih =>
    have he := bucketFlags_sum e (h e (List.mem_cons_self e t))
    have ht := ih fun x hx => h x (List.mem_cons_of_mem e hx)
    simp only [length_filter_cons, List.length_cons]
    omega

/-- C5 (counterexample): the resource name `ab` selects an endpoint whose only
tag is `afortnox_b`, because the code removes the first occurrence of
`fortnox_` anywhere in the tag — the claim's prefix-stripped criterion does
not hold for that tag. -/
theorem getByResource_matches_nonprefix_occurrence :
    getEndpointsByResource ("ab".toList) [eZ] =
        ToolOut.ok (ResourceBuckets.mk 1 [] [] [] [eZ] [])
      ∧ eZ.tags = some [("afortnox_b".toList)]
      ∧ ¬ tagMatchStripped ("ab".toList) ("afortnox_b".toList) :=
  ⟨rfl, rfl, by unfold tagMatchStripped; decide⟩

/-- C5 (amended): getByResource selects exactly the endpoints having a tag t
with lowercase(t) containing lowercase(r), or lowercase(r) containing
lowercase(t) with the FIRST OCCURRENCE of the vendor-prefix substring
removed; it fails with the not-found message iff zero endpoints match, and on
success the five buckets partition the matched set exactly (each matched
endpoint satisfies exactly one bucket predicate, the buckets are the matching
sublists for those predicates, and their sizes sum to the match count). -/
theorem getByResource_match_and_partition (resource : Str) (spec : OpenAPISpec) :
    (∀ e, e ∈ (getAllEndpoints spec).filter (endpointMatchesResource resource) ↔
        e ∈ getAllEndpoints spec ∧
          ∃ ts, e.tags = some ts ∧ ∃ t ∈ ts, tagMatchReplaced resource t)
      ∧ (getEndpointsByResource resource (getAllEndpoints spec) =
            ToolOut.err (noResourceMsg resource) ↔
          (getAllEndpoints spec).filter (endpointMatchesResource resource) = [])
      ∧ (∀ e ∈ (getAllEndpoints spec).filter (endpointMatchesResource resource),
          (cond (isListOp e) 1 0) + (cond (isGetOp e) 1 0) +
            (cond (isCreateOp e) 1 0) + (cond (isUpdateOp e) 1 0) +
            (cond (isDeleteOp e) 1 0) = 1)
      ∧ (∀ b, getEndpointsByResource resource (getAllEndpoints spec) =
            ToolOut.ok b →
          b.total =
              ((getAllEndpoints spec).filter
                (endpointMatchesResource resource)).length
            ∧ b.listOps =
                ((getAllEndpoints spec).filter
                  (endpointMatchesResource resource)).filter isListOp
            ∧ b.getOps =
                ((getAllEndpoints spec).filter
                  (endpointMatchesResource resource)).filter isGetOp
            ∧ b.createOps =
                ((getAllEndpoints spec).filter
                  (endpointMatchesResource resource)).filter isCreateOp
            ∧ b.updateOps =
                ((getAllEndpoints spec).filter
                  (endpointMatchesResource resource)).filter isUpdateOp
            ∧ b.deleteOps =
                ((getAllEndpoints spec).filter
                  (endpointMatchesResource resource)).filter isDeleteOp
            ∧ b.listOps.length + b.getOps.length + b.createOps.length +
                b.updateOps.length + b.deleteOps.length =
                ((getAllEndpoints spec).filter
                  (endpointMatchesResource resource)).length) := by
  have hmeth : ∀ e ∈ (getAllEndpoints spec).filter (endpointMatchesResource resource),
      e.method ∈ methodsU :=
    fun e he => method_mem_getAllEndpoints spec e (List.mem_of_mem_filter he)
  refine ⟨?_, ?_, ?_, ?_⟩
  · intro e
    rw [List.mem_filter, endpointMatchesResource_iff]
  · by_cases h0 :
        ((getAllEndpoints spec).filter (endpointMatchesResource resource)).length = 0
    · simp [getEndpointsByResource, h0, List.length_eq_zero.mp h0]
    · constructor
      · intro h
        simp only [getEndpointsByResource, if_neg h0] at h
        cases h
      · intro h
        exact absurd (by rw [h]; rfl) h0
  · exact fun e he => bucketFlags_sum e (hmeth e he)
  · intro b hb
    by_cases h0 :
        ((getAllEndpoints spec).filter (endpointMatchesResource resource)).length = 0
    · simp only [getEndpointsByResource, if_pos h0] at hb
      cases hb
    · simp only [getEndpointsByResource, if_neg h0] at hb
      cases hb
      refine ⟨rfl, rfl, rfl, rfl, rfl, rfl, ?_⟩
      exact five_filter_length_sum _ hmeth

/-- C5 witness: on the customers fixture the result is the two-endpoint bucket
record, whose buckets are the corresponding filters and whose sizes sum to
the match count. -/
theorem getByResource_match_and_partition_w :
    bCustomers.total =
        ((getAllEndpoints specC).filter
          (endpointMatchesResource ("Customers".toList))).length
      ∧ bCustomers.listOps =
          ((getAllEndpoints specC).filter
            (endpointMatchesResource ("Customers".toList))).filter isListOp
      ∧ bCustomers.getOps =
          ((getAllEndpoints specC).filter
            (endpointMatchesResource ("Customers".toList))).filter isGetOp
      ∧ bCustomers.createOps =
          ((getAllEndpoints specC).filter
            (endpointMatchesResource ("Customers".toList))).filter isCreateOp
      ∧ bCustomers.updateOps =
          ((getAllEndpoints specC).filter
            (endpointMatchesResource ("Customers".toList))).filter isUpdateOp
      ∧ bCustomers.deleteOps =
          ((getAllEndpoints specC).filter
            (endpointMatchesResource ("Customers".toList))).filter isDeleteOp
      ∧ bCustomers.listOps.length + bCustomers.getOps.length +
          bCustomers.createOps.length + bCustomers.updateOps.length +
          bCustomers.deleteOps.length =
          ((getAllEndpoints specC).filter
            (endpointMatchesResource ("Customers".toList))).length :=
  (getByResource_match_and_partition ("Customers".toList) specC).2.2.2
    bCustomers rfl

/-- C7 (counterexample): a request body whose first (and only) media-type key
is the empty string yields NO request-body schema, although the first
media-type entry does carry a schema — JS truthiness skips the empty key. -/
theorem parseOperation_empty_mediatype_dropped :
    opEmptyCT.requestBody = some (RequestBody.mk none none [([], strSchema)])
      ∧ (parseOperation ("/p".toList) ("post".toList) opEmptyCT).requestBodySchema =
          none
      ∧ some strSchema ≠ (none : Option Schema) :=
  ⟨rfl, rfl, by simp⟩

/-- C7 (amended): the request-body schema is the schema of the first
media-type entry of requestBody.content provided that entry's key is
non-empty (absent when there is no request body, the content map is empty, or
its first key is the empty string); the response schema comes from the `200`
response if present, else the `201` response, else is absent, with the same
first-media-type rule — and it depends on the responses map only through the
`200` and `201` keys. -/
theorem parseOperation_schema_selection (path method : Str) (op : Operation) :
    (parseOperation path method op).requestBodySchema = specReqSchema op
      ∧ (parseOperation path method op).responseSchema = specRespSchema op
      ∧ (∀ rs : List (Str × Response),
          rs.lookup ("200".toList) = op.responses.lookup ("200".toList) →
          rs.lookup ("201".toList) = op.responses.lookup ("201".toList) →
          (parseOperation path method
              { op with responses := rs }).responseSchema =
            (parseOperation path method op).responseSchema) := by
  refine ⟨rfl, ?_, ?_⟩
  · show (match (op.responses.lookup ("200".toList)).or
        (op.responses.lookup ("201".toList)) with
      | some resp =>
        match resp.content with
        | some cs =>
          match cs.head? with
          | some (contentType, sch) => if contentType = [] then none else some sch
          | none => none
        | none => none
      | none => none) = specRespSchema op
    unfold specRespSchema schemaOfResp
    cases h2 : op.responses.lookup ("200".toList) <;>
      cases h1 : op.responses.lookup ("201".toList) <;>
      simp [Option.or]
  · intro rs h200 h201
    show (match (rs.lookup ("200".toList)).or (rs.lookup ("201".toList)) with
      | some resp =>
        match resp.content with
        | some cs =>
          match cs.head? with
          | some (contentType, sch) => if contentType = [] then none else some sch
          | none => none
        | none => none
      | none => none) =
      (match (op.responses.lookup ("200".toList)).or
          (op.responses.lookup ("201".toList)) with
        | some resp =>
          match resp.content with
          | some cs =>
            match cs.head? with
            | some (contentType, sch) => if contentType = [] then none else some sch
            | none => none
          | none => none
        | none => none)
    rw [h200, h201]

/-- C7 witness: replacing the responses map of `op201` by one agreeing on the
`200`/`201` keys leaves the extracted response schema unchanged. -/
theorem parseOperation_schema_selection_w :
    (parseOperation ("/p".toList) ("get".toList)
        { op201 with responses := rs201 }).responseSchema =
      (parseOperation ("/p".toList) ("get".toList) op201).responseSchema :=
  (parseOperation_schema_selection ("/p".toList) ("get".toList) op201).2.2
    rs201 rfl rfl

/-- C10 (counterexample): a reference to a schema whose description IS set but
empty produces the fixed string `Schema reference`, not that (empty)
description — JS `||` treats the empty string as absent. -/
theorem getSchemaDescription_empty_description :
    resolveSchemaRef specNoServers refX = some tgtEmptyDesc
      ∧ tgtEmptyDesc.description = some []
      ∧ getSchemaDescription specNoServers sRefX = schemaReferenceStr
      ∧ schemaReferenceStr ≠ ([] : Str) :=
  ⟨rfl, rfl, rfl, by simp [schemaReferenceStr]⟩

/-- C10 (amended): for a schema node whose `$ref` is a NON-EMPTY string,
describing it returns the resolved target's description when that description
is present and non-empty, and otherwise exactly `Schema reference` — in
particular when the reference has the wrong shape (not resolving at all) or
an unknown name; the function is total (no throw, no recursion on the ref
branch). -/
theorem getSchemaDescription_ref_behavior (spec : OpenAPISpec) (s : Schema)
    (r : Str) (href : s.ref = some r) (hr : r ≠ []) :
    ((∃ t, resolveSchemaRef spec r = some t ∧
        ∃ d, t.description = some d ∧ d ≠ [] ∧
          getSchemaDescription spec s = d)
      ∨ (getSchemaDescription spec s = schemaReferenceStr ∧
          ∀ t, resolveSchemaRef spec r = some t →
            ∀ d, t.description = some d → d = []))
      ∧ (isPrefB schemasRefPref r = false → resolveSchemaRef spec r = none) := by
  constructor
  · have hmain : getSchemaDescription spec s =
        (match (resolveSchemaRef spec r).bind Schema.description with
          | some d => if d = [] then schemaReferenceStr else d
          | none => schemaReferenceStr) := by
      simp only [getSchemaDescription, href, if_neg hr]
    rcases hb : (resolveSchemaRef spec r).bind Schema.description with _ | d
    · right
      refine ⟨by rw [hmain, hb], ?_⟩
      intro t ht d hd
      rw [ht, Option.some_bind, hd] at hb
      cases hb
    · by_cases hd : d = []
      · right
        refine ⟨by rw [hmain, hb]; simp [hd], ?_⟩
        intro t ht d2 hd2
        rw [ht, Option.some_bind, hd2] at hb
        injection hb with h2
        exact h2.trans hd
      · left
        obtain ⟨t, ht, htd⟩ := Option.bind_eq_some.mp hb
        exact ⟨t, ht, d, htd, hd, by rw [hmain, hb]; simp [hd]⟩
  · intro h
    simp [resolveSchemaRef, h]

/-- C10 witness: a wrongly shaped reference does not resolve. -/
theorem getSchemaDescription_ref_behavior_w :
    resolveSchemaRef specNoServers ("bad".toList) = none :=
  (getSchemaDescription_ref_behavior specNoServers
      (Schema.mk none none (some ("bad".toList)) none none) ("bad".toList)
      rfl (by decide)).2 (by decide)

/-- C8 (counterexample): `Apple` is listed before `fortnox_Aaa` in the
alphabetical resource list, yet the prefix-stripped name of the second entry
(`Aaa`) is alphabetically strictly smaller than that of the first (`Apple`) —
the sort key is the full tag name, not the stripped one. -/
theorem listResourceGroups_alpha_not_stripped_sorted :
    (listResourceGroups [eA, eB]).alphabetical =
        [("Apple".toList, 1), ("fortnox_Aaa".toList, 1)]
      ∧ pairLtB (tagAlphaKey (dropPref fortnoxPref ("fortnox_Aaa".toList), 1))
          (tagAlphaKey (dropPref fortnoxPref ("Apple".toList), 1)) = true :=
  ⟨rfl, by decide⟩

/-- C8 (amended): the alphabetical view of listResourceGroups is a permutation
of the tag-count table, sorted by the FULL tag name (vendor prefix included,
under the locale-comparator model), each entry carrying the tag's
endpoint-occurrence count; the display strips the prefix only after
sorting. -/
theorem listResourceGroups_alpha_full_tag (eps : List Endpoint) :
    ((listResourceGroups eps).alphabetical).Perm (tagCountsOf eps)
      ∧ List.Pairwise localeLe (listResourceGroups eps).alphabetical
      ∧ (∀ p ∈ (listResourceGroups eps).alphabetical,
          p.2 = (eps.flatMap tagsD).countP (fun x => decide (x = p.1)))
      ∧ (listResourceGroups eps).total = (tagCountsOf eps).length := by
  have halpha : (listResourceGroups eps).alphabetical =
      ((tagCountsOf eps).insertionSort countGe).insertionSort localeLe := rfl
  have hperm : ((listResourceGroups eps).alphabetical).Perm (tagCountsOf eps) := by
    rw [halpha]
    exact (List.perm_insertionSort localeLe _).trans
      (List.perm_insertionSort countGe _)
  refine ⟨hperm, ?_, ?_, ?_⟩
  · rw [halpha]
    exact List.sorted_insertionSort localeLe _
  · intro p hp
    have hmem : p ∈ tagCountsOf eps := hperm.mem_iff.mp hp
    have hnd : ((tagCountsOf eps).map Prod.fst).Nodup := by
      rw [tagCountsOf_eq_bumpAll]
      exact nodup_keys_bumpAll _
    rw [← lookupCount_of_mem _ hnd p hmem, lookupCount_tagCountsOf]
  · show ((tagCountsOf eps).insertionSort countGe).length = _
    exact (List.perm_insertionSort countGe _).length_eq

/-- C8 witness: the `Apple` entry of the alphabetical list carries the number
of (endpoint, tag) occurrences of `Apple` in the fixture index. -/
theorem listResourceGroups_alpha_full_tag_w :
    ("Apple".toList, (1 : Nat)).2 =
      ([eA, eB].flatMap tagsD).countP
        (fun x => decide (x = ("Apple".toList, (1 : Nat)).1)) :=
  (listResourceGroups_alpha_full_tag [eA, eB]).2.2.1 ("Apple".toList, 1)
    (by decide)

lemma filter_take_exists_rest {α : Type} (p : α → Bool) (n : Nat) (l : List α) :
    ∃ rest, (l.take n).filter p ++ rest = l.filter p :=
  ⟨(l.drop n).filter p, by rw [← List.filter_append, List.take_append_drop]⟩

lemma pairwise_take_drop {α : Type} {R : α → α → Prop} {l : List α}
    (h : List.Pairwise R l) (n : Nat) :
    ∀ a ∈ l.take n, ∀ b ∈ l.drop n, R a b :=
  (List.pairwise_append.mp (by rw [List.take_append_drop]; exact h)).2.2

/-- C9 (counterexample): on a document with an empty `servers` list, overview
fails (getBaseUrl throws) even for the empty index — it does not always
succeed. -/
theorem overview_fails_on_empty_servers :
    getAPIOverview specNoServers [] =
      Except.error ("No servers defined in OpenAPI spec".toList) := rfl

/-- C9 (amended): whenever `servers` is non-empty, overview succeeds and
counts one occurrence per endpoint method and one per (endpoint, tag)
incidence; its top-ten list is the ten highest-count entries of the tag-count
table: it has min 10 (#tags) entries drawn from the table, is sorted by
descending count, dominates every entry left out, and within each count class
keeps the first-seen order of the tags (the table's key order is first-seen
order of the scan).  With an empty `servers` list overview fails. -/
theorem overview_counts_and_top10 (spec : OpenAPISpec) (eps : List Endpoint)
    (hs : spec.servers ≠ []) :
    ∃ o, getAPIOverview spec eps = Except.ok o
      ∧ o.totalEndpoints = eps.length
      ∧ (∀ m, lookupCount m o.methodCounts =
          eps.countP (fun e => decide (e.method = m)))
      ∧ (∀ t, lookupCount t (tagCountsOf eps) =
          (eps.flatMap tagsD).countP (fun x => decide (x = t)))
      ∧ o.resourceGroups = (tagCountsOf eps).length
      ∧ o.top10.length = min 10 (tagCountsOf eps).length
      ∧ List.Pairwise countGe o.top10
      ∧ (∀ p ∈ o.top10, p ∈ tagCountsOf eps)
      ∧ (∀ p ∈ o.top10, ∀ q ∈ tagCountsOf eps, q ∉ o.top10 → q.2 ≤ p.2)
      ∧ (∀ c, ∃ rest, (o.top10.filter (fun p => decide (p.2 = c))) ++ rest =
          (tagCountsOf eps).filter (fun p => decide (p.2 = c)))
      ∧ (tagCountsOf eps).map Prod.fst = firstSeen (eps.flatMap tagsD) := by
  cases hsv : spec.servers with
  | nil => exact absurd hsv hs
  | cons s rest =>
    have hbu : getBaseUrl spec = Except.ok s.url := by simp [getBaseUrl, hsv]
    refine ⟨{ baseUrl := s.url
              totalEndpoints := eps.length
              methodCounts := methodCountsOf eps
              resourceGroups := (tagCountsOf eps).length
              top10 := ((tagCountsOf eps).insertionSort countGe).take 10 },
      ?_, rfl, ?_, ?_, rfl, ?_, ?_, ?_, ?_, ?_, ?_⟩
    · simp only [getAPIOverview, hbu]
    · exact fun m => lookupCount_methodCountsOf eps m
    · exact fun t => lookupCount_tagCountsOf eps t
    · rw [List.length_take, (List.perm_insertionSort countGe _).length_eq]
    · exact List.Pairwise.sublist (List.take_sublist 10 _)
        (List.sorted_insertionSort countGe _)
    · intro p hp
      exact (List.perm_insertionSort countGe _).mem_iff.mp
        (List.take_subset 10 _ hp)
    · intro p hp q hq hqnot
      have hqs : q ∈ (tagCountsOf eps).insertionSort countGe :=
        (List.perm_insertionSort countGe _).mem_iff.mpr hq
      have hq2 : q ∈ ((tagCountsOf eps).insertionSort countGe).take 10 ∨
          q ∈ ((tagCountsOf eps).insertionSort countGe).drop 10 := by
        rw [← List.mem_append, List.take_append_drop]
        exact hqs
      rcases hq2 with h | h
      · exact absurd h hqnot
      · exact pairwise_take_drop (List.sorted_insertionSort countGe _) 10 p hp q h
    · intro c
      obtain ⟨r2, hr2⟩ := filter_take_exists_rest (fun p => decide (p.2 = c)) 10
        ((tagCountsOf eps).insertionSort countGe)
      exact ⟨r2, by rw [hr2, filter_insertionSort_count]⟩
    · exact tagKeys_firstSeen eps

/-- C9 witness: the concrete customers fixture (one server, two endpoints)
satisfies the full overview characterization. -/
theorem overview_counts_and_top10_w :
    ∃ o, getAPIOverview specC [eC, eD] = Except.ok o
      ∧ o.totalEndpoints = [eC, eD].length
      ∧ (∀ m, lookupCount m o.methodCounts =
          [eC, eD].countP (fun e => decide (e.method = m)))
      ∧ (∀ t, lookupCount t (tagCountsOf [eC, eD]) =
          ([eC, eD].flatMap tagsD).countP (fun x => decide (x = t)))
      ∧ o.resourceGroups = (tagCountsOf [eC, eD]).length
      ∧ o.top10.length = min 10 (tagCountsOf [eC, eD]).length
      ∧ List.Pairwise countGe o.top10
      ∧ (∀ p ∈ o.top10, p ∈ tagCountsOf [eC, eD])
      ∧ (∀ p ∈ o.top10, ∀ q ∈ tagCountsOf [eC, eD], q ∉ o.top10 → q.2 ≤ p.2)
      ∧ (∀ c, ∃ rest, (o.top10.filter (fun p => decide (p.2 = c))) ++ rest =
          (tagCountsOf [eC, eD]).filter (fun p => decide (p.2 = c)))
      ∧ (tagCountsOf [eC, eD]).map Prod.fst = firstSeen ([eC, eD].flatMap tagsD) :=
  overview_counts_and_top10 specC [eC, eD] (by decide)

end FortnoxDoc
